import Mathlib

/-!
Shallow embedding of the gesture-controlled particle scene
(`src/App.tsx`, `src/types.ts`, `src/utils/geometry.ts` = `src/unnamed/part_000`,
`src/components/HandManager.tsx` + `src/components/Visuals.tsx` = `src/unnamed/part_001`),
together with theorems settling the specification claims about it.
-/

set_option maxHeartbeats 1000000

namespace XmasTree

/-! ## Data model (`src/types.ts`) -/

/-- `AppMode` enum from `src/types.ts`. -/
inductive AppMode where
  | TREE
  | SCATTER
  | ZOOM
deriving DecidableEq, Repr

/-- The gesture category of a `HandGestureData` sample (`src/types.ts`):
`'Closed_Fist' | 'Open_Palm' | 'Pointing_Up' | 'Unknown' | 'Pinch'`. -/
inductive Gesture where
  | Closed_Fist
  | Open_Palm
  | Pointing_Up
  | Unknown
  | Pinch
deriving DecidableEq, Repr

/-- Particle type tag from `src/types.ts`:
`'sphere' | 'cube' | 'photo' | 'diamond' | 'snowflake' | 'bell' | 'star'`. -/
inductive PType where
  | sphere
  | cube
  | photo
  | diamond
  | snowflake
  | bell
  | star
deriving DecidableEq, Repr

/-- A 3-component vector of reals, standing for the `[number, number, number]`
triples / `THREE.Vector3` values of the source. -/
structure Vec3 where
  x : ℝ
  y : ℝ
  z : ℝ

/-- `ParticleData` from `src/types.ts`. -/
structure ParticleData where
  id : String
  type : PType
  treePos : Vec3
  scatterPos : Vec3
  color : String
  textureUrl : Option String := none
  rotation : Vec3
  scale : ℝ

/-! ## Mode state machine: raw gesture decision (`src/App.tsx`, `handleGestureUpdate`) -/

/-- The raw mode decision of `handleGestureUpdate` (`src/App.tsx` lines 42-79):
the `switch (data.gesture)` that picks the next (pending) mode from the gesture,
the mode value visible to the updater, and the current `hoveredPhotoId`
(a non-null id is truthy in the source; ids produced by the generator are
never the empty string). -/
def gestureModeDecision (g : Gesture) (currentMode : AppMode)
    (hoveredPhotoId : Option String) : AppMode :=
  match g with
  | .Closed_Fist =>
      if currentMode ≠ AppMode.ZOOM ∧ hoveredPhotoId.isSome then AppMode.ZOOM
      else AppMode.TREE
  | .Open_Palm => AppMode.SCATTER
  | .Pinch => AppMode.ZOOM
  | .Pointing_Up => AppMode.TREE
  | .Unknown => AppMode.TREE

/-! ## Debounce machine (`src/App.tsx`, `useDebouncedState`)

`useDebouncedState` keeps a committed value `state` and a pending value
`tempState`; whenever `tempState` changes, the effect cancels the previous
`setTimeout` and schedules a commit of the new pending value `delay` ms later.
Setting the pending value to the value it already holds does not re-run the
effect (React bails out on identical state), so the running timer survives.
We model it as a state with a committed value, a pending value and an optional
commit deadline, driven by timestamped samples. -/

/-- Debounce state: committed value (`state`), pending value (`tempState`) and
the deadline of the active `setTimeout`, if any. -/
structure DebounceState (α : Type) where
  committed : α
  pending : α
  deadline : Option ℕ
deriving DecidableEq, Repr

/-- Initial hook state: both values are the initial value, no pending commit
(the mount-time timer would commit the initial value, a no-op). -/
def debounceInit (a : α) : DebounceState α := ⟨a, a, none⟩

/-- Let the pending timer fire if its deadline has passed by time `t`:
the `setTimeout` callback runs `setState(tempState)`. -/
def debounceFire (t : ℕ) (s : DebounceState α) : DebounceState α :=
  match s.deadline with
  | some d => if d ≤ t then ⟨s.pending, s.pending, none⟩ else s
  | none => s

/-- Process one raw sample `(t, v)`: any timer that expired before `t` has
already fired; then, if `v` differs from the pending value, the effect re-runs:
it cancels the old timer and schedules a commit of `v` at `t + delay`.
If `v` equals the pending value React bails out and the state is unchanged. -/
def debounceStep [DecidableEq α] (delay : ℕ) (s : DebounceState α)
    (e : ℕ × α) : DebounceState α :=
  let s1 := debounceFire e.1 s
  if e.2 = s1.pending then s1
  else ⟨s1.committed, e.2, some (e.1 + delay)⟩

/-- Run the debounce machine over a list of timestamped samples. -/
def debounceRun [DecidableEq α] (delay : ℕ) (a : α)
    (evs : List (ℕ × α)) : DebounceState α :=
  evs.foldl (debounceStep delay) (debounceInit a)

/-- The committed value observed at time `T`: process every sample with
timestamp `≤ T`, then let the timer fire if its deadline is `≤ T`. -/
def committedAt [DecidableEq α] (delay : ℕ) (a : α)
    (evs : List (ℕ × α)) (T : ℕ) : α :=
  (debounceFire T (debounceRun delay a (evs.filter (fun e => decide (e.1 ≤ T))))).committed

/-- The settle delay used by `App`: `useDebouncedState<AppMode>(AppMode.TREE, 300)`. -/
def settleDelay : ℕ := 300

/-! ## Particle layout generator (`src/unnamed/part_000` = `utils/geometry.ts`)

The generator calls `Math.random()` sequentially; we model the random stream as
a function `ℕ → ℝ` together with the index of the next unread value. -/

/-- A pseudo-random stream with a cursor, standing in for `Math.random()`. -/
structure Rng where
  stream : ℕ → ℝ
  idx : ℕ

/-- Draw the next random value. -/
def Rng.next (g : Rng) : ℝ × Rng := (g.stream g.idx, ⟨g.stream, g.idx + 1⟩)

/-- `const COUNT = 1200` — the fixed ornament count. -/
def COUNT : ℕ := 1200

/-- `const RADIUS_BASE = 9.0`. -/
noncomputable def RADIUS_BASE : ℝ := 9.0

/-- `const HEIGHT = 24`. -/
noncomputable def HEIGHT : ℝ := 24

/-- `colors.gold`. -/
def goldColors : List String := ["#FFD700", "#FDB931", "#D4AF37"]

/-- `colors.red`. -/
def redColors : List String := ["#8B0000", "#DC143C", "#B22222"]

/-- `colors.green`. -/
def greenColors : List String := ["#006400", "#228B22", "#556B2F"]

/-- `colors.silver`. -/
def silverColors : List String := ["#C0C0C0", "#E5E4E2", "#FFFFFF"]

/-- `allColors = [...gold, ...red, ...green, ...silver]`. -/
def allColors : List String := goldColors ++ redColors ++ greenColors ++ silverColors

/-- `Math.cbrt` on reals (sign-preserving cube root). -/
noncomputable def jsCbrt (u : ℝ) : ℝ :=
  if 0 ≤ u then u ^ ((1 : ℝ) / 3) else -((-u) ^ ((1 : ℝ) / 3))

/-- `arr[Math.floor(u * arr.length)]`, with a default for an out-of-range draw. -/
noncomputable def pickColor (arr : List String) (u : ℝ) : String :=
  arr.getD (Int.toNat (Int.floor (u * arr.length))) "#000000"

/-- One photo particle of the helix loop (`generateParticles`, photo branch):
`n` is `photos.length` (`helixCount`), `i` the loop index, `url` `photos[i]`.
Consumes three random draws for the scatter position. -/
noncomputable def mkPhotoParticle (n i : ℕ) (url : String) (g : Rng) :
    ParticleData × Rng :=
  let rawT : ℝ := (i : ℝ) / (n : ℝ)
  let t : ℝ := 0.05 + rawT * 0.8
  let y : ℝ := (t * HEIGHT - HEIGHT / 2) * 0.8
  let frequency : ℝ := 8.0
  let theta : ℝ := t * Real.pi * 2 * frequency
  let heightFactor : ℝ := (1 - t) ^ (0.8 : ℝ)
  let r : ℝ := heightFactor * RADIUS_BASE + 3.0
  let x : ℝ := Real.cos theta * r
  let z : ℝ := Real.sin theta * r
  let (u1, g1) := g.next
  let rScatter : ℝ := 15 * jsCbrt u1
  let (u2, g2) := g1.next
  let sTheta : ℝ := u2 * Real.pi * 2
  let (u3, g3) := g2.next
  let sPhi : ℝ := Real.arccos (u3 * 2 - 1)
  let sx : ℝ := rScatter * Real.sin sPhi * Real.cos sTheta
  let sy : ℝ := rScatter * Real.sin sPhi * Real.sin sTheta
  let sz : ℝ := rScatter * Real.cos sPhi
  (⟨"p-photo-" ++ toString i, PType.photo, ⟨x, y, z⟩, ⟨sx, sy, sz⟩,
    "#FFD700", some url, ⟨0, -theta + Real.pi / 2, 0⟩, 0.8⟩, g3)

/-- The photo helix loop, iterating over the index list (normally
`List.range photos.length`) and threading the random stream. -/
noncomputable def genPhotosAux (n : ℕ) (photos : List String) :
    List ℕ → Rng → List ParticleData × Rng
  | [], g => ([], g)
  | i :: rest, g =>
      let pr := mkPhotoParticle n i (photos.getD i "") g
      let tail := genPhotosAux n photos rest pr.2
      (pr.1 :: tail.1, tail.2)

/-- The "Determine Decoration Type" branch of the ornament loop: from the
draw `rand = u7` pick type, scale and color, with the conditional extra draws
of the snowflake and sphere branches. -/
noncomputable def ornamentKind (scale0 : ℝ) (color0 : String) (u7 : ℝ)
    (g : Rng) : PType × ℝ × String × Rng :=
  if (0.95 : ℝ) < u7 then
    let (u8, g8) := g.next
    (PType.snowflake, (0.6 : ℝ), pickColor silverColors u8, g8)
  else if (0.90 : ℝ) < u7 then
    (PType.bell, (0.7 : ℝ), "#FFD700", g)
  else if (0.85 : ℝ) < u7 then
    (PType.cube, (0.8 : ℝ), redColors.getD 0 "#000000", g)
  else
    let (u8, g8) := g.next
    (PType.sphere, if (0.8 : ℝ) < u8 then (0.7 : ℝ) else scale0, color0, g8)

/-- One ornament/foliage particle (`generateParticles`, ornament loop body for
index `i`), threading the random draws in source order. -/
noncomputable def mkOrnament (i : ℕ) (g : Rng) : ParticleData × Rng :=
  let t : ℝ := (i : ℝ) / (COUNT : ℝ)
  let angle : ℝ := (i : ℝ) * 2.39996
  let y : ℝ := t * HEIGHT - HEIGHT / 2
  let heightFactor : ℝ := (1 - t) ^ (0.9 : ℝ)
  let maxRadiusAtHeight : ℝ := heightFactor * RADIUS_BASE
  let (u1, g1) := g.next
  let r : ℝ := maxRadiusAtHeight * Real.sqrt (u1 * 0.9 + 0.1)
  let x : ℝ := Real.cos angle * r
  let z : ℝ := Real.sin angle * r
  let (u2, g2) := g1.next
  let rScatter : ℝ := 18 * jsCbrt u2
  let (u3, g3) := g2.next
  let sTheta : ℝ := u3 * Real.pi * 2
  let (u4, g4) := g3.next
  let sPhi : ℝ := Real.arccos (u4 * 2 - 1)
  let sx : ℝ := rScatter * Real.sin sPhi * Real.cos sTheta
  let sy : ℝ := rScatter * Real.sin sPhi * Real.sin sTheta
  let sz : ℝ := rScatter * Real.cos sPhi
  let (u5, g5) := g4.next
  let scale0 : ℝ := u5 * 0.3 + 0.3
  let (u6, g6) := g5.next
  let color0 : String := pickColor allColors u6
  let (u7, g7) := g6.next
  let kind := ornamentKind scale0 color0 u7 g7
  let ty := kind.1
  let scale := kind.2.1
  let color := kind.2.2.1
  let g8 := kind.2.2.2
  let (ur1, g9) := g8.next
  let (ur2, g10) := g9.next
  (⟨"p-" ++ toString i, ty, ⟨x, y, z⟩, ⟨sx, sy, sz⟩, color, none,
    ⟨ur1 * Real.pi, ur2 * Real.pi, 0⟩, scale⟩, g10)

/-- The ornament loop over an index list (normally `List.range COUNT`). -/
noncomputable def genOrnamentsAux : List ℕ → Rng → List ParticleData × Rng
  | [], g => ([], g)
  | i :: rest, g =>
      let pr := mkOrnament i g
      let tail := genOrnamentsAux rest pr.2
      (pr.1 :: tail.1, tail.2)

/-- The topper star appended last by `generateParticles`. -/
noncomputable def topperStar : ParticleData :=
  ⟨"star", PType.star, ⟨0, HEIGHT / 2 + 1.0, 0⟩, ⟨0, 0, 0⟩, "#FFD700", none,
    ⟨0, 0, 0⟩, 1.5⟩

/-- `generateParticles` (`src/unnamed/part_000` lines 8-139): photo helix
particles (when `photos.length > 0`), then the ornament loop, then the topper. -/
noncomputable def generateParticles (photos : List String) (g : Rng) :
    List ParticleData :=
  let photoPr :=
    if 0 < photos.length then
      genPhotosAux photos.length photos (List.range photos.length) g
    else ([], g)
  let ornamentPr := genOrnamentsAux (List.range COUNT) photoPr.2
  photoPr.1 ++ ornamentPr.1 ++ [topperStar]

/-! ## Focus selector (`src/unnamed/part_001`, `FocusManager`, lines 414-457) -/

/-- Dot product of two vectors (`THREE.Vector3.dot`). -/
noncomputable def dotV (v w : Vec3) : ℝ := v.x * w.x + v.y * w.y + v.z * w.z

/-- `THREE.Vector3.normalize`: divide by `length() || 1`
(the zero vector is left unchanged). -/
noncomputable def normalizeV (v : Vec3) : Vec3 :=
  let len := Real.sqrt (v.x * v.x + v.y * v.y + v.z * v.z)
  let d := if len = 0 then 1 else len
  ⟨v.x / d, v.y / d, v.z / d⟩

/-- The rest position used by `FocusManager` for the current mode:
`mode === AppMode.TREE ? p.treePos : p.scatterPos` (componentwise in source). -/
def restPos (mode : AppMode) (p : ParticleData) : Vec3 :=
  if mode = AppMode.TREE then p.treePos else p.scatterPos

/-- The score `camDir.dot(pos)` computed for a photo particle: dot product of
the normalized camera position and the particle's normalized rest position. -/
noncomputable def photoScore (cam : Vec3) (mode : AppMode) (p : ParticleData) : ℝ :=
  dotV (normalizeV cam) (normalizeV (restPos mode p))

/-- The `forEach` scan of `FocusManager`: accumulator `none` stands for the
initial `bestId = null, maxDot = -Infinity`; a particle replaces the
accumulator exactly when its score is strictly greater (`dot > maxDot`). -/
noncomputable def scanPhotos (cam : Vec3) (mode : AppMode) :
    List ParticleData → Option (String × ℝ) → Option (String × ℝ)
  | [], acc => acc
  | p :: rest, acc =>
      let d := photoScore cam mode p
      let acc1 := match acc with
        | none => some (p.id, d)
        | some (bid, md) => if md < d then some (p.id, d) else some (bid, md)
      scanPhotos cam mode rest acc1

/-- One `useFrame` tick of `FocusManager`: returns the new focus id, given the
previous one (`prev` is returned unchanged on the early-return paths, since the
component then performs no `onFocusChange` call). -/
noncomputable def focusStep (particles : List ParticleData) (mode : AppMode)
    (cam : Vec3) (prev : Option String) : Option String :=
  if mode = AppMode.ZOOM then prev
  else
    let photoParticles := particles.filter (fun p => decide (p.type = PType.photo))
    if photoParticles.isEmpty then prev
    else
      match scanPhotos cam mode photoParticles none with
      | none => prev
      | some (bid, maxDot) => if (0.65 : ℝ) < maxDot then some bid else none

/-! ## Pose blender (`src/unnamed/part_001`, `ParticleInstance`, lines 286-367) -/

/-- A per-frame blend target: position, scale and rotation. -/
structure BlendTarget where
  pos : Vec3
  scale : ℝ
  rot : Vec3

/-- `data.id === hoveredPhotoId`. -/
def isCandidate (data : ParticleData) (hoveredPhotoId : Option String) : Prop :=
  hoveredPhotoId = some data.id

instance : ∀ d h, Decidable (isCandidate d h) := fun d h =>
  inferInstanceAs (Decidable (h = some d.id))

/-- `isSelected = isCandidate && mode === AppMode.ZOOM`. -/
def isSelected (data : ParticleData) (mode : AppMode)
    (hoveredPhotoId : Option String) : Prop :=
  isCandidate data hoveredPhotoId ∧ mode = AppMode.ZOOM

instance : ∀ d m h, Decidable (isSelected d m h) := fun _ _ _ =>
  inferInstanceAs (Decidable (_ ∧ _))

/-- The target transform computed by `ParticleInstance`'s `useFrame` body
(before blending), for a given mode, hover id and clock time. -/
noncomputable def particleTarget (data : ParticleData) (mode : AppMode)
    (hoveredPhotoId : Option String) (time : ℝ) : BlendTarget :=
  let isHighlighted := isCandidate data hoveredPhotoId ∧ mode ≠ AppMode.ZOOM
  let isPhoto := data.type = PType.photo
  let targetScale : ℝ := if isHighlighted then data.scale * 1.3 else data.scale
  match mode with
  | .TREE => ⟨data.treePos, targetScale, data.rotation⟩
  | .SCATTER =>
      ⟨⟨data.scatterPos.x + Real.cos (time * 0.2 + data.scatterPos.y) * 0.05,
        data.scatterPos.y + Real.sin (time * 0.2 + data.scatterPos.x) * 0.05,
        data.scatterPos.z⟩, targetScale, data.rotation⟩
  | .ZOOM =>
      if isSelected data .ZOOM hoveredPhotoId ∧ isPhoto then
        ⟨⟨0, 0, 6⟩, 5.0, ⟨0, 0, 0⟩⟩
      else
        ⟨⟨data.scatterPos.x * 3.5, data.scatterPos.y * 3.5,
          data.scatterPos.z - 40⟩, targetScale, data.rotation⟩

/-- The per-frame blend rate:
`lerpSpeed = (isSelected && isPhoto) ? delta * 15 : delta * 2.5`. -/
noncomputable def lerpSpeed (data : ParticleData) (mode : AppMode)
    (hoveredPhotoId : Option String) (delta : ℝ) : ℝ :=
  if isSelected data mode hoveredPhotoId ∧ data.type = PType.photo then delta * 15
  else delta * 2.5

/-- The continuous spin of `ParticleInstance` (lines 364-366):
`if (data.type === 'diamond' || data.type === 'star') rotation.y += delta * 0.5`.
`true` exactly when the per-frame spin increment applies. -/
def spinApplies (data : ParticleData) : Bool :=
  decide (data.type = PType.diamond) || decide (data.type = PType.star)

/-! ## Camera rig (`src/unnamed/part_001`, `CameraRig`, lines 501-546) -/

/-- `THREE.MathUtils.lerp(x, y, t) = x + (y - x) * t`. -/
noncomputable def lerpR (a b t : ℝ) : ℝ := a + (b - a) * t

/-- `THREE.Vector3.lerp` componentwise. -/
noncomputable def lerpV (v w : Vec3) (t : ℝ) : Vec3 :=
  ⟨lerpR v.x w.x t, lerpR v.y w.y t, lerpR v.z w.z t⟩

/-- `const targetAzimuth = (handX - 0.5) * Math.PI * 2.5`. -/
noncomputable def targetAzimuth (handX : ℝ) : ℝ :=
  (handX - 0.5) * Real.pi * 2.5

/-- The camera pose produced by one `useFrame` tick of `CameraRig`:
position (after smoothing from the previous position), look-at target, and the
roll (`rotation.z`, forced to `0` every frame). -/
structure CamPose where
  pos : Vec3
  look : Vec3
  roll : ℝ

/-- One `useFrame` tick of `CameraRig`. `handZ` and `handRotation` are accepted
(they are props of the component) but never read by the body, apart from the
explicit `rotation.z = 0` write. -/
noncomputable def cameraRigStep (mode : AppMode)
    (handX handY handZ handRotation : ℝ) (prev : CamPose) : CamPose :=
  let tAz := targetAzimuth handX
  let targetPolar := (handY - 0.5) * 35
  match mode with
  | .SCATTER =>
      let baseDistance : ℝ := 30
      let camX := Real.sin tAz * baseDistance
      let camZ := Real.cos tAz * baseDistance
      ⟨⟨lerpR prev.pos.x camX 0.1, lerpR prev.pos.y targetPolar 0.1,
        lerpR prev.pos.z camZ 0.1⟩, ⟨0, 0, 0⟩, 0⟩
  | .TREE =>
      let baseDistance : ℝ := 28
      let camX := Real.sin tAz * baseDistance
      let camZ := Real.cos tAz * baseDistance
      ⟨⟨lerpR prev.pos.x camX 0.1, lerpR prev.pos.y targetPolar 0.1,
        lerpR prev.pos.z camZ 0.1⟩, ⟨0, 0, 0⟩, 0⟩
  | .ZOOM =>
      ⟨lerpV prev.pos ⟨0, 0, 10⟩ 0.05, ⟨0, 0, 0⟩, 0⟩

/-! ## App-level wiring for photo upload (`src/App.tsx`) -/

/-- The slice of `App` state relevant to the upload path. -/
structure AppUploadState where
  photos : List String
  particles : List ParticleData
  hoveredPhotoId : Option String

/-- `handlePhotoUpload` (`src/App.tsx` lines 81-87): appends the uploaded
object URLs to the photo list. No other state is touched. -/
def handlePhotoUpload (files : List String) (s : AppUploadState) : AppUploadState :=
  { s with photos := s.photos ++ files }

/-- The `useEffect` on `[photos]` (`src/App.tsx` lines 35-40): when the photo
list is non-empty, regenerate the entire particle set. -/
noncomputable def photosChangedEffect (g : Rng) (s : AppUploadState) : AppUploadState :=
  if 0 < s.photos.length then
    { s with particles := generateParticles s.photos g }
  else s

/-- A full upload step: the handler runs, then the effect observes the changed
photo list. -/
noncomputable def uploadStep (g : Rng) (files : List String)
    (s : AppUploadState) : AppUploadState :=
  photosChangedEffect g (handlePhotoUpload files s)

/-! ## Debounce lemmas -/

theorem debounceFire_none (T : ℕ) (c p : α) :
    debounceFire T (⟨c, p, none⟩ : DebounceState α) = ⟨c, p, none⟩ := rfl

theorem debounceFire_some (T : ℕ) (c p : α) (d : ℕ) :
    debounceFire T (⟨c, p, some d⟩ : DebounceState α) =
      if d ≤ T then ⟨p, p, none⟩ else ⟨c, p, some d⟩ := rfl

theorem debounceStep_none_same [DecidableEq α] (delay : ℕ) (c p : α) (t : ℕ) :
    debounceStep delay (⟨c, p, none⟩ : DebounceState α) (t, p) = ⟨c, p, none⟩ := by
  simp [debounceStep, debounceFire]

theorem debounceStep_none_new [DecidableEq α] (delay : ℕ) (c p : α) (t : ℕ)
    (v : α) (hv : v ≠ p) :
    debounceStep delay (⟨c, p, none⟩ : DebounceState α) (t, v) =
      ⟨c, v, some (t + delay)⟩ := by
  simp [debounceStep, debounceFire, hv]

theorem debounceStep_some_new [DecidableEq α] (delay : ℕ) (c p : α) (d t : ℕ)
    (v : α) (hd : ¬ d ≤ t) (hv : v ≠ p) :
    debounceStep delay (⟨c, p, some d⟩ : DebounceState α) (t, v) =
      ⟨c, v, some (t + delay)⟩ := by
  simp [debounceStep, debounceFire, hd, hv]

theorem debounceStep_pending [DecidableEq α] (delay : ℕ) (s : DebounceState α)
    (e : ℕ × α) : (debounceStep delay s e).pending = e.2 := by
  obtain ⟨c, p, dl⟩ := s
  obtain ⟨t, v⟩ := e
  simp only [debounceStep, debounceFire]
  cases dl with
  | none => split_ifs <;> simp_all
  | some d0 =>
      by_cases hdt : d0 ≤ t <;> simp only [hdt, if_true, if_false] <;>
        split_ifs <;> simp_all

theorem debounceStep_inv [DecidableEq α] (delay : ℕ) (s : DebounceState α)
    (e : ℕ × α) (h : s.deadline = none → s.committed = s.pending) :
    (debounceStep delay s e).deadline = none →
      (debounceStep delay s e).committed = (debounceStep delay s e).pending := by
  obtain ⟨c, p, dl⟩ := s
  obtain ⟨t, v⟩ := e
  simp only [debounceStep, debounceFire]
  cases dl with
  | none => split_ifs <;> simp_all
  | some d0 =>
      by_cases hdt : d0 ≤ t <;> simp only [hdt, if_true, if_false] <;>
        split_ifs <;> simp_all

theorem debounceStep_deadline_le [DecidableEq α] (delay tM : ℕ)
    (s : DebounceState α) (e : ℕ × α) (he : e.1 ≤ tM)
    (hs : ∀ d, s.deadline = some d → d ≤ tM + delay) :
    ∀ d, (debounceStep delay s e).deadline = some d → d ≤ tM + delay := by
  obtain ⟨c, p, dl⟩ := s
  obtain ⟨t, v⟩ := e
  intro d
  simp only [debounceStep, debounceFire]
  cases dl with
  | none =>
      split_ifs <;> intro hd <;> simp_all <;> omega
  | some d0 =>
      have hd0 : d0 ≤ tM + delay := hs d0 rfl
      by_cases hdt : d0 ≤ t <;> simp only [hdt, if_true, if_false] <;>
        split_ifs <;> intro hd <;> simp_all <;> omega

theorem debounceRun_inv_aux [DecidableEq α] (delay : ℕ) :
    ∀ (evs : List (ℕ × α)) (s : DebounceState α),
      (s.deadline = none → s.committed = s.pending) →
      ((evs.foldl (debounceStep delay) s).deadline = none →
        (evs.foldl (debounceStep delay) s).committed =
          (evs.foldl (debounceStep delay) s).pending) := by
  intro evs
  induction evs with
  | nil => intro s hs; exact hs
  | cons e rest ih =>
      intro s hs
      exact ih _ (debounceStep_inv delay s e hs)

theorem debounceRun_deadline_le_aux [DecidableEq α] (delay tM : ℕ) :
    ∀ (evs : List (ℕ × α)) (s : DebounceState α),
      (∀ e ∈ evs, e.1 ≤ tM) →
      (∀ d, s.deadline = some d → d ≤ tM + delay) →
      ∀ d, (evs.foldl (debounceStep delay) s).deadline = some d → d ≤ tM + delay := by
  intro evs
  induction evs with
  | nil => intro s _ hs; exact hs
  | cons e rest ih =>
      intro s hev hs
      exact ih _ (fun e' he' => hev e' (List.mem_cons_of_mem _ he'))
        (debounceStep_deadline_le delay tM s e (hev e (List.mem_cons_self _ _)) hs)

theorem debounceStep_mem [DecidableEq α] (delay : ℕ) (L : List α)
    (s : DebounceState α) (e : ℕ × α) (hc : s.committed ∈ L)
    (hp : s.pending ∈ L) (hv : e.2 ∈ L) :
    (debounceStep delay s e).committed ∈ L ∧ (debounceStep delay s e).pending ∈ L := by
  obtain ⟨c, p, dl⟩ := s
  obtain ⟨t, v⟩ := e
  simp only [debounceStep, debounceFire]
  cases dl with
  | none => split_ifs <;> simp_all
  | some d0 =>
      by_cases hdt : d0 ≤ t <;> simp only [hdt, if_true, if_false] <;>
        split_ifs <;> simp_all

theorem debounceRun_mem_aux [DecidableEq α] (delay : ℕ) (L : List α) :
    ∀ (evs : List (ℕ × α)) (s : DebounceState α),
      s.committed ∈ L → s.pending ∈ L → (∀ e ∈ evs, e.2 ∈ L) →
      (evs.foldl (debounceStep delay) s).committed ∈ L ∧
        (evs.foldl (debounceStep delay) s).pending ∈ L := by
  intro evs
  induction evs with
  | nil => intro s hc hp _; exact ⟨hc, hp⟩
  | cons e rest ih =>
      intro s hc hp hev
      obtain ⟨hc', hp'⟩ := debounceStep_mem delay L s e hc hp
        (hev e (List.mem_cons_self _ _))
      exact ih _ hc' hp' (fun e' he' => hev e' (List.mem_cons_of_mem _ he'))

/-- A raw value held from its sample time `t` through at least the settle
delay is committed: the last sample's value is the committed value at any
`T ≥ t + delay`, provided no sample follows it. -/
theorem held_commits [DecidableEq α] (delay : ℕ) (a v : α)
    (evs : List (ℕ × α)) (t T : ℕ) (hev : ∀ e ∈ evs, e.1 ≤ t)
    (hT : t + delay ≤ T) :
    committedAt delay a (evs ++ [(t, v)]) T = v := by
  have hfilter : (evs ++ [(t, v)]).filter (fun e => decide (e.1 ≤ T)) =
      evs ++ [(t, v)] := by
    rw [List.filter_eq_self]
    intro e he
    rcases List.mem_append.mp he with h | h
    · exact decide_eq_true (le_trans (hev e h) (by omega))
    · simp only [List.mem_singleton] at h
      subst h
      exact decide_eq_true (by omega)
  unfold committedAt debounceRun
  rw [hfilter, List.foldl_append]
  set s0 := evs.foldl (debounceStep delay) (debounceInit a) with hs0
  have hpend : (debounceStep delay s0 (t, v)).pending = v :=
    debounceStep_pending delay s0 (t, v)
  have hdl : ∀ d, (debounceStep delay s0 (t, v)).deadline = some d →
      d ≤ t + delay := by
    apply debounceStep_deadline_le delay t s0 (t, v) (le_refl t)
    apply debounceRun_deadline_le_aux delay t evs (debounceInit a) hev
    intro d hd
    simp [debounceInit] at hd
  have hinv : (debounceStep delay s0 (t, v)).deadline = none →
      (debounceStep delay s0 (t, v)).committed =
        (debounceStep delay s0 (t, v)).pending := by
    apply debounceStep_inv
    apply debounceRun_inv_aux delay evs (debounceInit a)
    intro _; rfl
  simp only [List.foldl_cons, List.foldl_nil]
  set s1 := debounceStep delay s0 (t, v) with hs1
  obtain ⟨c, p, dl⟩ := s1
  simp only at hpend hdl hinv
  cases dl with
  | none =>
      rw [debounceFire_none]
      exact (hinv rfl).trans hpend
  | some d =>
      rw [debounceFire_some, if_pos (le_trans (hdl d rfl) hT)]
      exact hpend

/-- In the raw sequence A, B, A with the whole span shorter than the settle
delay, B is never committed, at any observation time. -/
theorem aba_never_commits [DecidableEq α] (delay : ℕ) (a A B : α)
    (t0 t1 t2 T : ℕ) (h01 : t0 < t1) (h12 : t1 < t2) (hspan : t2 < t0 + delay)
    (haB : a ≠ B) (hAB : A ≠ B) :
    committedAt delay a [(t0, A), (t1, B), (t2, A)] T ≠ B := by
  have hd1 : ¬ (t0 + delay ≤ t1) := by omega
  have hd2 : ¬ (t1 + delay ≤ t2) := by omega
  have hBA : B ≠ A := Ne.symm hAB
  unfold committedAt debounceRun
  by_cases hT0 : t0 ≤ T
  · by_cases hT1 : t1 ≤ T
    · -- state after the first two samples is ⟨a, B, some (t1 + delay)⟩
      have htwo : List.foldl (debounceStep delay) (debounceInit a)
          [(t0, A), (t1, B)] = ⟨a, B, some (t1 + delay)⟩ := by
        by_cases hAa : A = a
        · subst hAa
          simp only [List.foldl_cons, List.foldl_nil, debounceInit]
          rw [debounceStep_none_same, debounceStep_none_new delay A A t1 B hBA]
        · simp only [List.foldl_cons, List.foldl_nil, debounceInit]
          rw [debounceStep_none_new delay a a t0 A hAa,
            debounceStep_some_new delay a A (t0 + delay) t1 B hd1 hBA]
      by_cases hT2 : t2 ≤ T
      · have hf : List.filter (fun e => decide (e.1 ≤ T))
            [(t0, A), (t1, B), (t2, A)] = [(t0, A), (t1, B), (t2, A)] := by
          simp [List.filter, hT0, hT1, hT2]
        rw [hf]
        have : List.foldl (debounceStep delay) (debounceInit a)
            [(t0, A), (t1, B), (t2, A)] = ⟨a, A, some (t2 + delay)⟩ := by
          have hsplit : ([(t0, A), (t1, B), (t2, A)] : List (ℕ × α)) =
              [(t0, A), (t1, B)] ++ [(t2, A)] := rfl
          rw [hsplit, List.foldl_append, htwo]
          simp only [List.foldl_cons, List.foldl_nil]
          rw [debounceStep_some_new delay a B (t1 + delay) t2 A hd2 hAB]
        rw [this, debounceFire_some]
        split_ifs <;> simpa
      · have hf : List.filter (fun e => decide (e.1 ≤ T))
            [(t0, A), (t1, B), (t2, A)] = [(t0, A), (t1, B)] := by
          simp [List.filter, hT0, hT1, hT2]
        rw [hf, htwo, debounceFire_some,
          if_neg (by omega : ¬ (t1 + delay ≤ T))]
        simpa
    · have hf : List.filter (fun e => decide (e.1 ≤ T))
          [(t0, A), (t1, B), (t2, A)] = [(t0, A)] := by
        have hT2 : ¬ (t2 ≤ T) := by omega
        simp [List.filter, hT0, hT1, hT2]
      rw [hf]
      simp only [List.foldl_cons, List.foldl_nil, debounceInit]
      by_cases hAa : A = a
      · subst hAa
        rw [debounceStep_none_same, debounceFire_none]
        simpa
      · rw [debounceStep_none_new delay a a t0 A hAa, debounceFire_some]
        split_ifs <;> simpa
  · have hf : List.filter (fun e => decide (e.1 ≤ T))
        [(t0, A), (t1, B), (t2, A)] = [] := by
      have hT1 : ¬ (t1 ≤ T) := by omega
      have hT2 : ¬ (t2 ≤ T) := by omega
      simp [List.filter, hT0, hT1, hT2]
    rw [hf]
    simpa [debounceInit, debounceFire_none]

/-- The observed committed value is always the initial value or the value of
some processed raw sample — never an interpolation. -/
theorem committed_is_seen [DecidableEq α] (delay : ℕ) (a : α)
    (evs : List (ℕ × α)) (T : ℕ) :
    committedAt delay a evs T ∈ a :: evs.map Prod.snd := by
  unfold committedAt debounceRun
  have hmem := debounceRun_mem_aux delay (a :: evs.map Prod.snd)
    (evs.filter (fun e => decide (e.1 ≤ T))) (debounceInit a)
    (List.mem_cons_self _ _) (List.mem_cons_self _ _)
    (fun e he => List.mem_cons_of_mem _
      (List.mem_map_of_mem Prod.snd (List.mem_of_mem_filter he)))
  set s := (evs.filter (fun e => decide (e.1 ≤ T))).foldl
    (debounceStep delay) (debounceInit a) with hs
  obtain ⟨c, p, dl⟩ := s
  obtain ⟨hc, hp⟩ := hmem
  cases dl with
  | none => simpa [debounceFire_none] using hc
  | some d =>
      rw [debounceFire_some]
      split_ifs <;> simp_all

/-! ## Generator lemmas -/

theorem genPhotosAux_cons (n : ℕ) (photos : List String) (i : ℕ)
    (rest : List ℕ) (g : Rng) :
    (genPhotosAux n photos (i :: rest) g).1 =
      (mkPhotoParticle n i (photos.getD i "") g).1 ::
        (genPhotosAux n photos rest (mkPhotoParticle n i (photos.getD i "") g).2).1 := rfl

theorem genOrnamentsAux_cons (i : ℕ) (rest : List ℕ) (g : Rng) :
    (genOrnamentsAux (i :: rest) g).1 =
      (mkOrnament i g).1 :: (genOrnamentsAux rest (mkOrnament i g).2).1 := rfl

theorem genPhotosAux_length (n : ℕ) (photos : List String) (l : List ℕ) :
    ∀ g : Rng, ((genPhotosAux n photos l g).1).length = l.length := by
  induction l with
  | nil => intro g; rfl
  | cons i rest ih => intro g; simp [genPhotosAux_cons, ih]

theorem genOrnamentsAux_length (l : List ℕ) :
    ∀ g : Rng, ((genOrnamentsAux l g).1).length = l.length := by
  induction l with
  | nil => intro g; rfl
  | cons i rest ih => intro g; simp [genOrnamentsAux_cons, ih]

theorem mkPhotoParticle_type (n i : ℕ) (url : String) (g : Rng) :
    (mkPhotoParticle n i url g).1.type = PType.photo := rfl

theorem ornamentKind_type (s0 : ℝ) (c0 : String) (u : ℝ) (g : Rng) :
    (ornamentKind s0 c0 u g).1 = PType.snowflake
    ∨ (ornamentKind s0 c0 u g).1 = PType.bell
    ∨ (ornamentKind s0 c0 u g).1 = PType.cube
    ∨ (ornamentKind s0 c0 u g).1 = PType.sphere := by
  unfold ornamentKind
  split_ifs <;> simp

theorem mkOrnament_type (i : ℕ) (g : Rng) :
    (mkOrnament i g).1.type = PType.snowflake
    ∨ (mkOrnament i g).1.type = PType.bell
    ∨ (mkOrnament i g).1.type = PType.cube
    ∨ (mkOrnament i g).1.type = PType.sphere :=
  ornamentKind_type _ _ _ _

theorem genPhotosAux_countP (pred : ParticleData → Bool)
    (hp : ∀ n i url g, pred (mkPhotoParticle n i url g).1 = false)
    (n : ℕ) (photos : List String) (l : List ℕ) :
    ∀ g : Rng, ((genPhotosAux n photos l g).1).countP pred = 0 := by
  induction l with
  | nil => intro g; rfl
  | cons i rest ih =>
      intro g
      simp [genPhotosAux_cons, List.countP_cons, hp, ih]

theorem genOrnamentsAux_countP (pred : ParticleData → Bool)
    (ho : ∀ i g, pred (mkOrnament i g).1 = false) (l : List ℕ) :
    ∀ g : Rng, ((genOrnamentsAux l g).1).countP pred = 0 := by
  induction l with
  | nil => intro g; rfl
  | cons i rest ih =>
      intro g
      simp [genOrnamentsAux_cons, List.countP_cons, ho, ih]

theorem mkOrnament_not_star (i : ℕ) (g : Rng) :
    decide ((mkOrnament i g).1.type = PType.star) = false := by
  rcases mkOrnament_type i g with h | h | h | h <;> simp [h]

theorem mkOrnament_not_diamond (i : ℕ) (g : Rng) :
    decide ((mkOrnament i g).1.type = PType.diamond) = false := by
  rcases mkOrnament_type i g with h | h | h | h <;> simp [h]

theorem mkOrnament_no_spin (i : ℕ) (g : Rng) :
    spinApplies (mkOrnament i g).1 = false := by
  rcases mkOrnament_type i g with h | h | h | h <;> simp [spinApplies, h]

/-! ## Claim C5: particle counts -/

/-- **C5.** For every photo list (and every random stream), the generated
layout contains exactly `COUNT` ornaments + one particle per supplied photo
+ 1 topper, and exactly one particle of the topper-star type. -/
theorem generateParticles_count (photos : List String) (g : Rng) :
    (generateParticles photos g).length = COUNT + photos.length + 1
    ∧ (generateParticles photos g).countP
        (fun p => decide (p.type = PType.star)) = 1 := by
  have hphoto : ∀ n i url g,
      (fun p => decide (p.type = PType.star)) (mkPhotoParticle n i url g).1 = false := by
    intro n i url g; simp [mkPhotoParticle_type]
  constructor
  · unfold generateParticles
    by_cases h : 0 < photos.length
    · simp only [h, if_true, List.length_append, List.length_cons, List.length_nil,
        genPhotosAux_length, genOrnamentsAux_length, List.length_range]
      omega
    · simp only [h, if_false, List.length_append, List.length_cons, List.length_nil,
        genOrnamentsAux_length, List.length_range]
      omega
  · unfold generateParticles
    by_cases h : 0 < photos.length <;>
      simp only [h, if_true, if_false, List.countP_append, List.countP_cons,
        genPhotosAux_countP (fun p => decide (p.type = PType.star)) hphoto,
        genOrnamentsAux_countP (fun p => decide (p.type = PType.star)) mkOrnament_not_star,
        List.countP_nil, topperStar] <;> rfl

/-! ## Claim C10: no crystal particles; spin affects only the topper -/

/-- **C10.** No generated particle ever has the crystal (`diamond`) type, and
the per-frame spin increment of `ParticleInstance` (defined for the `diamond`
and `star` types) applies to exactly one generated particle — the topper star,
which is the last particle of the layout. -/
theorem generated_no_diamond_spin_only_topper (photos : List String) (g : Rng) :
    (generateParticles photos g).countP
        (fun p => decide (p.type = PType.diamond)) = 0
    ∧ (generateParticles photos g).countP spinApplies = 1
    ∧ (generateParticles photos g).getLast? = some topperStar
    ∧ spinApplies topperStar = true := by
  have hpd : ∀ n i url g,
      (fun p => decide (p.type = PType.diamond)) (mkPhotoParticle n i url g).1 = false := by
    intro n i url g; simp [mkPhotoParticle_type]
  have hps : ∀ n i url g, spinApplies (mkPhotoParticle n i url g).1 = false := by
    intro n i url g; simp [spinApplies, mkPhotoParticle_type]
  refine ⟨?_, ?_, ?_, by simp [spinApplies, topperStar]⟩
  · unfold generateParticles
    by_cases h : 0 < photos.length <;>
      simp only [h, if_true, if_false, List.countP_append, List.countP_cons,
        genPhotosAux_countP (fun p => decide (p.type = PType.diamond)) hpd,
        genOrnamentsAux_countP (fun p => decide (p.type = PType.diamond))
          mkOrnament_not_diamond,
        List.countP_nil, topperStar] <;> rfl
  · unfold generateParticles
    by_cases h : 0 < photos.length <;>
      simp only [h, if_true, if_false, List.countP_append, List.countP_cons,
        genPhotosAux_countP spinApplies hps,
        genOrnamentsAux_countP spinApplies mkOrnament_no_spin,
        List.countP_nil, topperStar] <;> rfl
  · unfold generateParticles
    by_cases h : 0 < photos.length <;> simp [h]

theorem genPhotosAux_getElem (n : ℕ) (photos : List String) :
    ∀ (l : List ℕ) (g : Rng) (k : ℕ), k < l.length →
      ∃ g' : Rng, (genPhotosAux n photos l g).1[k]? =
        some (mkPhotoParticle n (l.getD k 0) (photos.getD (l.getD k 0) "") g').1 := by
  intro l
  induction l with
  | nil => intro g k hk; simp at hk
  | cons i rest ih =>
      intro g k hk
      cases k with
      | zero => exact ⟨g, by simp [genPhotosAux_cons]⟩
      | succ k =>
          obtain ⟨g', hg⟩ :=
            ih (mkPhotoParticle n i (photos.getD i "") g).2 k (by simpa using hk)
          exact ⟨g', by simpa [genPhotosAux_cons] using hg⟩

/-! ## Claim C6: photo helix rule -/

/-- **C6.** For every non-empty photo list of length `n` and index `i < n`,
the `i`-th photo particle obeys the helix rule: height fraction
`t = 0.05 + (i/n)·0.8`, vertical position `(t·HEIGHT − HEIGHT/2)·0.8`, helix
angle `θ = t·2π·8`, radius `(1−t)^0.8 · RADIUS_BASE + 3`, tree position on the
helix, and rest rotation `(0, −θ + π/2, 0)` about the vertical axis, so its
face normal points outward from the trunk at its helix angle. -/
theorem photo_helix_pose (photos : List String) (g : Rng) (i : ℕ)
    (hi : i < photos.length) :
    ∃ p : ParticleData,
      (generateParticles photos g)[i]? = some p
      ∧ (let t : ℝ := 0.05 + ((i : ℝ) / (photos.length : ℝ)) * 0.8
         let theta : ℝ := t * Real.pi * 2 * 8.0
         let radius : ℝ := (1 - t) ^ (0.8 : ℝ) * RADIUS_BASE + 3.0
         p.treePos = ⟨Real.cos theta * radius,
            (t * HEIGHT - HEIGHT / 2) * 0.8, Real.sin theta * radius⟩
         ∧ p.rotation = ⟨0, -theta + Real.pi / 2, 0⟩) := by
  have hpos : 0 < photos.length := by omega
  have hrange : i < (List.range photos.length).length := by
    simpa using hi
  obtain ⟨g', hg⟩ :=
    genPhotosAux_getElem photos.length photos (List.range photos.length) g i hrange
  have hgetd : (List.range photos.length).getD i 0 = i := by
    simp [List.getD, List.getElem?_range, hi]
  rw [hgetd] at hg
  refine ⟨(mkPhotoParticle photos.length i (photos.getD i "") g').1, ?_, rfl, rfl⟩
  unfold generateParticles
  simp only [hpos, if_true]
  rw [List.append_assoc, List.getElem?_append,
    if_pos (by rw [genPhotosAux_length, List.length_range]; exact hi)]
  exact hg

/-- A concrete random stream (constantly zero) used to instantiate theorems. -/
noncomputable def rngZero : Rng := ⟨fun _ => 0, 0⟩

/-- Witness for `photo_helix_pose` at `photos = ["a"]`, `i = 0`. -/
theorem photo_helix_pose_witness :
    0 < (["a"] : List String).length
    ∧ ∃ p : ParticleData,
        (generateParticles ["a"] rngZero)[0]? = some p
        ∧ (let t : ℝ := 0.05 + (((0 : ℕ) : ℝ) / (((["a"] : List String).length : ℕ) : ℝ)) * 0.8
           let theta : ℝ := t * Real.pi * 2 * 8.0
           let radius : ℝ := (1 - t) ^ (0.8 : ℝ) * RADIUS_BASE + 3.0
           p.treePos = ⟨Real.cos theta * radius,
              (t * HEIGHT - HEIGHT / 2) * 0.8, Real.sin theta * radius⟩
           ∧ p.rotation = ⟨0, -theta + Real.pi / 2, 0⟩) :=
  ⟨by decide, photo_helix_pose ["a"] rngZero 0 (by decide)⟩

/-! ## Claim C1: the raw gesture transition table -/

/-- **C1.** For every incoming gesture sample, the raw mode decision follows
the transition table: closed-hand yields zoom when the current mode is not zoom
and a focus id is set, and yields tree otherwise (in particular, closed-hand
while in zoom yields tree regardless of focus id); open-hand yields scatter;
pinch yields zoom; pointing or unknown yields tree. -/
theorem gesture_transition_table (m : AppMode) (f : Option String) :
    (gestureModeDecision Gesture.Closed_Fist m f =
      if m ≠ AppMode.ZOOM ∧ f.isSome then AppMode.ZOOM else AppMode.TREE)
    ∧ gestureModeDecision Gesture.Closed_Fist AppMode.ZOOM f = AppMode.TREE
    ∧ gestureModeDecision Gesture.Open_Palm m f = AppMode.SCATTER
    ∧ gestureModeDecision Gesture.Pinch m f = AppMode.ZOOM
    ∧ gestureModeDecision Gesture.Pointing_Up m f = AppMode.TREE
    ∧ gestureModeDecision Gesture.Unknown m f = AppMode.TREE := by
  refine ⟨rfl, ?_, rfl, rfl, rfl, rfl⟩
  simp [gestureModeDecision]

/-! ## Claim C2: mode debounce -/

/-- **C2.** With the App's 300 ms settle delay: (i) a raw decision sequence
A, B, A whose span is shorter than the settle delay never commits B, at any
observation time; (ii) a raw decision held (as the last sample) for at least
the settle delay is always committed; (iii) the committed value always equals
the initial value or some previously-seen raw value — never an interpolation. -/
theorem mode_debounce :
    (∀ (a A B : AppMode) (t0 t1 t2 T : ℕ), t0 < t1 → t1 < t2 →
      t2 < t0 + settleDelay → a ≠ B → A ≠ B →
      committedAt settleDelay a [(t0, A), (t1, B), (t2, A)] T ≠ B)
    ∧ (∀ (a v : AppMode) (evs : List (ℕ × AppMode)) (t T : ℕ),
        (∀ e ∈ evs, e.1 ≤ t) → t + settleDelay ≤ T →
        committedAt settleDelay a (evs ++ [(t, v)]) T = v)
    ∧ (∀ (a : AppMode) (evs : List (ℕ × AppMode)) (T : ℕ),
        committedAt settleDelay a evs T ∈ a :: evs.map Prod.snd) :=
  ⟨fun a A B t0 t1 t2 T h01 h12 hspan haB hAB =>
      aba_never_commits settleDelay a A B t0 t1 t2 T h01 h12 hspan haB hAB,
    fun a v evs t T hev hT => held_commits settleDelay a v evs t T hev hT,
    fun a evs T => committed_is_seen settleDelay a evs T⟩

/-- Witness for `mode_debounce` at concrete samples: the flickering sequence
scatter, zoom, scatter within 200 ms never shows zoom; a held scatter commits
at 300 ms; an early observation still equals a previously-seen value. -/
theorem mode_debounce_witness :
    committedAt settleDelay AppMode.TREE
      [(0, AppMode.SCATTER), (100, AppMode.ZOOM), (200, AppMode.SCATTER)] 450
        ≠ AppMode.ZOOM
    ∧ committedAt settleDelay AppMode.TREE
        (([] : List (ℕ × AppMode)) ++ [(0, AppMode.SCATTER)]) 300 = AppMode.SCATTER
    ∧ committedAt settleDelay AppMode.TREE [(0, AppMode.SCATTER)] 100
        ∈ AppMode.TREE :: ([(0, AppMode.SCATTER)].map Prod.snd) :=
  ⟨mode_debounce.1 AppMode.TREE AppMode.SCATTER AppMode.ZOOM 0 100 200 450
      (by decide) (by decide) (by decide) (by decide) (by decide),
    mode_debounce.2.1 AppMode.TREE AppMode.SCATTER [] 0 300
      (by intro e he; cases he) (by decide),
    mode_debounce.2.2 AppMode.TREE [(0, AppMode.SCATTER)] 100⟩

/-! ## Claim C3: focus selector -/

theorem scanPhotos_go (cam : Vec3) (mode : AppMode) :
    ∀ (l : List ParticleData) (b : String) (m : ℝ),
      (scanPhotos cam mode l (some (b, m)) = some (b, m)
        ∧ ∀ p ∈ l, photoScore cam mode p ≤ m)
      ∨ (∃ k : Fin l.length,
          scanPhotos cam mode l (some (b, m)) =
            some ((l.get k).id, photoScore cam mode (l.get k))
          ∧ m < photoScore cam mode (l.get k)
          ∧ (∀ p ∈ l, photoScore cam mode p ≤ photoScore cam mode (l.get k))
          ∧ (∀ j : Fin l.length, (j : ℕ) < (k : ℕ) →
              photoScore cam mode (l.get j) < photoScore cam mode (l.get k))) := by
  intro l
  induction l with
  | nil =>
      intro b m
      left
      exact ⟨rfl, by simp⟩
  | cons q rest ih =>
      intro b m
      by_cases hq : m < photoScore cam mode q
      · have hstep : scanPhotos cam mode (q :: rest) (some (b, m)) =
            scanPhotos cam mode rest (some (q.id, photoScore cam mode q)) := by
          simp [scanPhotos, hq]
        rcases ih q.id (photoScore cam mode q) with
          ⟨heq, hall⟩ | ⟨k, heq, hlt, hall, hfirst⟩
        · right
          refine ⟨⟨0, by simp⟩, ?_, hq, ?_, ?_⟩
          · rw [hstep, heq]; rfl
          · intro p hp
            rcases List.mem_cons.mp hp with rfl | hp
            · exact le_refl _
            · exact hall p hp
          · intro j hj
            exact absurd hj (Nat.not_lt_zero _)
        · right
          refine ⟨⟨k.1 + 1, Nat.succ_lt_succ k.2⟩, ?_, ?_, ?_, ?_⟩
          · rw [hstep, heq]; rfl
          · exact lt_trans hq hlt
          · intro p hp
            rcases List.mem_cons.mp hp with rfl | hp
            · exact le_of_lt hlt
            · exact hall p hp
          · intro j hj
            rcases j with ⟨jv, hjv⟩
            cases jv with
            | zero => exact hlt
            | succ j' =>
                exact hfirst ⟨j', by simp only [List.length_cons] at hjv; omega⟩ (Nat.lt_of_succ_lt_succ hj)
      · have hstep : scanPhotos cam mode (q :: rest) (some (b, m)) =
            scanPhotos cam mode rest (some (b, m)) := by
          simp [scanPhotos, hq]
        rcases ih b m with ⟨heq, hall⟩ | ⟨k, heq, hlt, hall, hfirst⟩
        · left
          refine ⟨hstep.trans heq, ?_⟩
          intro p hp
          rcases List.mem_cons.mp hp with rfl | hp
          · exact le_of_not_lt hq
          · exact hall p hp
        · right
          refine ⟨⟨k.1 + 1, Nat.succ_lt_succ k.2⟩, ?_, ?_, ?_, ?_⟩
          · rw [hstep, heq]; rfl
          · exact hlt
          · intro p hp
            rcases List.mem_cons.mp hp with rfl | hp
            · exact le_trans (le_of_not_lt hq) (le_of_lt hlt)
            · exact hall p hp
          · intro j hj
            rcases j with ⟨jv, hjv⟩
            cases jv with
            | zero => exact lt_of_le_of_lt (le_of_not_lt hq) hlt
            | succ j' =>
                exact hfirst ⟨j', by simp only [List.length_cons] at hjv; omega⟩ (Nat.lt_of_succ_lt_succ hj)

theorem scanPhotos_spec (cam : Vec3) (mode : AppMode) (q : ParticleData)
    (rest : List ParticleData) :
    ∃ k : Fin (q :: rest).length,
      scanPhotos cam mode (q :: rest) none =
        some (((q :: rest).get k).id, photoScore cam mode ((q :: rest).get k))
      ∧ (∀ p ∈ q :: rest,
          photoScore cam mode p ≤ photoScore cam mode ((q :: rest).get k))
      ∧ (∀ j : Fin (q :: rest).length, (j : ℕ) < (k : ℕ) →
          photoScore cam mode ((q :: rest).get j) <
            photoScore cam mode ((q :: rest).get k)) := by
  have hstep : scanPhotos cam mode (q :: rest) none =
      scanPhotos cam mode rest (some (q.id, photoScore cam mode q)) := by
    simp [scanPhotos]
  rcases scanPhotos_go cam mode rest q.id (photoScore cam mode q) with
    ⟨heq, hall⟩ | ⟨k, heq, hlt, hall, hfirst⟩
  · refine ⟨⟨0, by simp⟩, by rw [hstep, heq]; rfl, ?_, ?_⟩
    · intro p hp
      rcases List.mem_cons.mp hp with rfl | hp
      · exact le_refl _
      · exact hall p hp
    · intro j hj
      exact absurd hj (Nat.not_lt_zero _)
  · refine ⟨⟨k.1 + 1, Nat.succ_lt_succ k.2⟩, by rw [hstep, heq]; rfl, ?_, ?_⟩
    · intro p hp
      rcases List.mem_cons.mp hp with rfl | hp
      · exact le_of_lt hlt
      · exact hall p hp
    · intro j hj
      rcases j with ⟨jv, hjv⟩
      cases jv with
      | zero => exact hlt
      | succ j' =>
          exact hfirst ⟨j', by simp only [List.length_cons] at hjv; omega⟩ (Nat.lt_of_succ_lt_succ hj)

/-- **C3.** The focus selector: when the committed mode is zoom, or when there
is no photo particle, the focus id is left unchanged; otherwise (mode ≠ zoom,
photo list `q :: rest` after filtering) there is an index `k` whose particle
maximizes the dot-product score (its normalized rest position for the current
mode against the normalized camera position), every strictly earlier particle
scores strictly less (ties break to the first in iteration order), and the new
focus id is that particle's id when its score exceeds `0.65` and `none`
otherwise. -/
theorem focus_selector_spec (particles : List ParticleData) (mode : AppMode)
    (cam : Vec3) (prev : Option String) :
    (mode = AppMode.ZOOM → focusStep particles mode cam prev = prev)
    ∧ (particles.filter (fun p => decide (p.type = PType.photo)) = [] →
        focusStep particles mode cam prev = prev)
    ∧ (mode ≠ AppMode.ZOOM →
        ∀ q rest,
          particles.filter (fun p => decide (p.type = PType.photo)) = q :: rest →
          ∃ k : Fin (q :: rest).length,
            (∀ p ∈ q :: rest,
              photoScore cam mode p ≤ photoScore cam mode ((q :: rest).get k))
            ∧ (∀ j : Fin (q :: rest).length, (j : ℕ) < (k : ℕ) →
                photoScore cam mode ((q :: rest).get j) <
                  photoScore cam mode ((q :: rest).get k))
            ∧ focusStep particles mode cam prev =
                (if (0.65 : ℝ) < photoScore cam mode ((q :: rest).get k)
                 then some ((q :: rest).get k).id else none)) := by
  refine ⟨fun hz => by simp [focusStep, hz], fun hemp => ?_, fun hz q rest hfil => ?_⟩
  · by_cases hz : mode = AppMode.ZOOM
    · simp [focusStep, hz]
    · simp [focusStep, hz, hemp]
  · obtain ⟨k, heq, hmax, hfirst⟩ := scanPhotos_spec cam mode q rest
    refine ⟨k, hmax, hfirst, ?_⟩
    rw [focusStep, if_neg hz, hfil]
    simp only [List.isEmpty_cons, Bool.false_eq_true, if_false, heq]

/-- Witness for `focus_selector_spec` at a concrete frozen state (zoom mode,
empty particle list). -/
theorem focus_selector_spec_witness :
    (AppMode.ZOOM = AppMode.ZOOM →
      focusStep [] AppMode.ZOOM ⟨0, 0, 0⟩ (some "p-photo-0") = some "p-photo-0")
    ∧ (([] : List ParticleData).filter (fun p => decide (p.type = PType.photo)) = [] →
        focusStep [] AppMode.ZOOM ⟨0, 0, 0⟩ (some "p-photo-0") = some "p-photo-0")
    ∧ (AppMode.ZOOM ≠ AppMode.ZOOM →
        ∀ q rest,
          ([] : List ParticleData).filter (fun p => decide (p.type = PType.photo)) = q :: rest →
          ∃ k : Fin (q :: rest).length,
            (∀ p ∈ q :: rest,
              photoScore ⟨0, 0, 0⟩ AppMode.ZOOM p ≤
                photoScore ⟨0, 0, 0⟩ AppMode.ZOOM ((q :: rest).get k))
            ∧ (∀ j : Fin (q :: rest).length, (j : ℕ) < (k : ℕ) →
                photoScore ⟨0, 0, 0⟩ AppMode.ZOOM ((q :: rest).get j) <
                  photoScore ⟨0, 0, 0⟩ AppMode.ZOOM ((q :: rest).get k))
            ∧ focusStep [] AppMode.ZOOM ⟨0, 0, 0⟩ (some "p-photo-0") =
                (if (0.65 : ℝ) < photoScore ⟨0, 0, 0⟩ AppMode.ZOOM ((q :: rest).get k)
                 then some ((q :: rest).get k).id else none)) :=
  focus_selector_spec [] AppMode.ZOOM ⟨0, 0, 0⟩ (some "p-photo-0")

/-! ## Claim C4: zoom blend targets and the two-tier blend rate -/

/-- **C4.** In zoom mode the selected photo particle's blend target is the
fixed near-camera position `(0, 0, 6)`, the large fixed scale `5.0` and the
identity rotation; every other particle's zoom target position is its scatter
rest position scaled by `3.5` in the two in-plane coordinates and pushed back
by `40` along depth. The per-frame blend rate is the near-snap constant
`delta * 15` exactly for the selected zoom photo, and the smooth constant
`delta * 2.5` for every other particle in every mode. -/
theorem zoom_blend_targets (data : ParticleData) (hovered : Option String)
    (time delta : ℝ) (mode : AppMode) :
    (isCandidate data hovered → data.type = PType.photo →
      particleTarget data AppMode.ZOOM hovered time = ⟨⟨0, 0, 6⟩, 5.0, ⟨0, 0, 0⟩⟩)
    ∧ (¬ (isCandidate data hovered ∧ data.type = PType.photo) →
        particleTarget data AppMode.ZOOM hovered time =
          ⟨⟨data.scatterPos.x * 3.5, data.scatterPos.y * 3.5,
            data.scatterPos.z - 40⟩, data.scale, data.rotation⟩)
    ∧ (isSelected data mode hovered ∧ data.type = PType.photo →
        lerpSpeed data mode hovered delta = delta * 15)
    ∧ (¬ (isSelected data mode hovered ∧ data.type = PType.photo) →
        lerpSpeed data mode hovered delta = delta * 2.5) := by
  refine ⟨fun hc hp => ?_, fun hnc => ?_, fun hs => ?_, fun hns => ?_⟩
  · simp [particleTarget, isSelected, hc, hp]
  · simp only [particleTarget, isSelected]
    rw [if_neg (by tauto)]
    simp
  · simp [lerpSpeed, hs]
  · simp [lerpSpeed, hns]

/-- Witness for `zoom_blend_targets` at a concrete non-selected ornament. -/
theorem zoom_blend_targets_witness :
    (¬ (isCandidate topperStar none ∧ topperStar.type = PType.photo)
      ∧ particleTarget topperStar AppMode.ZOOM none 0 =
          ⟨⟨topperStar.scatterPos.x * 3.5, topperStar.scatterPos.y * 3.5,
            topperStar.scatterPos.z - 40⟩, topperStar.scale, topperStar.rotation⟩)
    ∧ (¬ (isSelected topperStar AppMode.TREE none ∧ topperStar.type = PType.photo)
      ∧ lerpSpeed topperStar AppMode.TREE none 1 = 1 * 2.5) :=
  ⟨⟨by simp [isCandidate], ((zoom_blend_targets topperStar none 0 1 AppMode.TREE).2.1
      (by simp [isCandidate]))⟩,
    ⟨by simp [isSelected, isCandidate], ((zoom_blend_targets topperStar none 0 1
      AppMode.TREE).2.2.2 (by simp [isSelected, isCandidate]))⟩⟩

/-! ## Claim C9: photo upload -/

/-- **C9 counterexample.** Uploading a photo while a focus id is set does not
discard the focus id: `App` never resets `hoveredPhotoId` on a photo-list
change, so it survives the upload/regeneration step unchanged (it is only
rewritten later by the focus selector). -/
theorem upload_keeps_focus_counterexample :
    (uploadStep rngZero ["a"]
      ⟨[], [], some "p-photo-0"⟩).hoveredPhotoId = some "p-photo-0" := by
  simp [uploadStep, photosChangedEffect, handlePhotoUpload]

/-- **C9 (amended).** When the photo list changes by an upload and the new
list is non-empty, the particle set is fully regenerated by the layout
generator from the whole new list (the old particle data is discarded, not
migrated), and the photo list is the old list with the files appended; the
focus id, however, is not reset — it persists unchanged through the upload
step. -/
theorem upload_regenerates (g : Rng) (files : List String)
    (s : AppUploadState) (h : s.photos ++ files ≠ []) :
    (uploadStep g files s).photos = s.photos ++ files
    ∧ (uploadStep g files s).particles = generateParticles (s.photos ++ files) g
    ∧ (uploadStep g files s).hoveredPhotoId = s.hoveredPhotoId := by
  have hlen : 0 < (s.photos ++ files).length := List.length_pos.mpr h
  have hor : 0 < s.photos.length ∨ 0 < files.length := by
    simp only [List.length_append] at hlen; omega
  simp [uploadStep, photosChangedEffect, handlePhotoUpload, hor]

/-- Witness for `upload_regenerates`: uploading one photo into the initial
empty state. -/
theorem upload_regenerates_witness :
    (([] : List String) ++ ["a"] ≠ [])
    ∧ ((uploadStep rngZero ["a"] ⟨[], [], none⟩).photos = ([] : List String) ++ ["a"]
      ∧ (uploadStep rngZero ["a"] ⟨[], [], none⟩).particles =
          generateParticles (([] : List String) ++ ["a"]) rngZero
      ∧ (uploadStep rngZero ["a"] ⟨[], [], none⟩).hoveredPhotoId = none) :=
  ⟨by simp, upload_regenerates rngZero ["a"] ⟨[], [], none⟩ (by simp)⟩

/-! ## Claims C7 and C8: camera rig -/

/-- **C7.** The Camera Rig maps the horizontal signal to an azimuth that is
centered (`handX = 0.5` maps to azimuth `0`), linear with a slope of 1.25 turns
per unit of signal — so the full signal range `[0, 1]` sweeps `1.25 · 2π`,
symmetrically about the center. -/
theorem camera_azimuth_span :
    targetAzimuth 0.5 = 0
    ∧ (∀ x : ℝ, targetAzimuth x = (x - 0.5) * (1.25 * (2 * Real.pi)))
    ∧ targetAzimuth 1 - targetAzimuth 0 = 1.25 * (2 * Real.pi)
    ∧ (∀ d : ℝ, targetAzimuth (0.5 + d) = -targetAzimuth (0.5 - d)) := by
  refine ⟨by simp [targetAzimuth], fun x => by unfold targetAzimuth; ring, ?_, fun d => ?_⟩
  · unfold targetAzimuth; ring
  · unfold targetAzimuth; ring

/-- **C8.** On every frame the Camera Rig forces the roll to zero, and the
produced camera pose does not depend on the roll signal (nor on depth): two
runs agreeing on mode, horizontal and vertical signals and previous camera
state yield identical poses for arbitrary roll signals. -/
theorem camera_roll_noninterference (mode : AppMode) (hx hy : ℝ)
    (z1 z2 r1 r2 : ℝ) (prev : CamPose) :
    cameraRigStep mode hx hy z1 r1 prev = cameraRigStep mode hx hy z2 r2 prev
    ∧ (cameraRigStep mode hx hy z1 r1 prev).roll = 0 := by
  cases mode <;> exact ⟨rfl, rfl⟩

end XmasTree
